import Mathlib

/-!
# Verification of `pandoc-sieve` against its specification

Shallow embedding of the `pandoc-sieve` repository
(`src/sieve/build.py`, `src/sieve/mermaid.py`) in Lean 4.

Python strings are modelled as `List Char`; the Python string operations
used by the source (`str.strip`, `str.lstrip`, `str.startswith`,
`str.find`, `str.rfind`, `str.split`, slicing with negative indices) are
defined below with Python's semantics.  External collaborators that the
spec declares out of scope (the YAML parser/serializer `yaml.safe_load` /
`yaml.dump`, panflute's `convert_text`, `hashlib.sha1`) are taken as
abstract function parameters; theorems state their required behaviour as
hypotheses.
-/

namespace Sieve

/-- Convenience: a Python string literal as a `List Char`. -/
def pys (s : String) : List Char := s.toList

/-- Python `str.isspace` for the ASCII whitespace characters
(space, tab, newline, carriage return, vertical tab, form feed).
All inputs appearing in the repository and the claims are ASCII. -/
def pyIsSpace (c : Char) : Bool :=
  c = ' ' || c = '\t' || c = '\n' || c = '\r' || c = Char.ofNat 11 || c = Char.ofNat 12

/-- Python `str.lstrip()`. -/
def pyLstrip (s : List Char) : List Char := s.dropWhile pyIsSpace

/-- Python `str.rstrip()`. -/
def pyRstrip (s : List Char) : List Char := (s.reverse.dropWhile pyIsSpace).reverse

/-- Python `str.strip()`. -/
def pyStrip (s : List Char) : List Char := pyLstrip (pyRstrip s)

/-- Python `str.strip(chars)`: remove the characters of `cs` from both ends. -/
def pyStripChars (s cs : List Char) : List Char :=
  ((s.dropWhile (cs.contains ·)).reverse.dropWhile (cs.contains ·)).reverse

/-- Helper for Python `str.find`: index of the first occurrence of `pat`
in `hay`, scanning from the left. -/
def findSubRec (pat : List Char) : List Char → Option Nat
  | [] => if pat.isEmpty then some 0 else none
  | c :: t => if pat.isPrefixOf (c :: t) then some 0 else (findSubRec pat t).map (· + 1)

/-- Python `hay.find(pat, start)` (result as `Option`). -/
def pyFindFrom (hay pat : List Char) (start : Nat) : Option Nat :=
  (findSubRec pat (hay.drop start)).map (· + start)

/-- Python `hay.find(pat, start)` with Python's `-1` convention. -/
def pyFindI (hay pat : List Char) (start : Nat) : Int :=
  match pyFindFrom hay pat start with
  | some i => (i : Int)
  | none => -1

/-- Python `hay.rfind(pat)` (result as `Option`): the highest index at
which `pat` occurs in `hay`. -/
def pyRfind (hay pat : List Char) : Option Nat :=
  ((List.range (hay.length + 1)).filter (fun i => pat.isPrefixOf (hay.drop i))).getLast?

/-- Clamp a Python slice bound to an index of a string of length `len`:
negative values count from the end. -/
def pyIdx (len : Nat) (i : Int) : Nat :=
  if i < 0 then ((len : Int) + i).toNat else min i.toNat len

/-- Python slice `s[a:b]` with Python's negative-index convention. -/
def pySliceI (s : List Char) (a b : Int) : List Char :=
  (s.take (pyIdx s.length b)).drop (pyIdx s.length a)

/-- Structural worker for `pySplitSub`.  Each recursive call consumes at
least `sep.length ≥ 1` characters (`findSubRec_bound`), so with initial
fuel `s.length + 1` the base case is never reached; structural recursion
on the fuel keeps the definition kernel-reducible. -/
def pySplitSubAux (sep : List Char) : Nat → List Char → List (List Char)
  | 0, s => [s]
  | fuel + 1, s =>
    match findSubRec sep s with
    | none => [s]
    | some i => s.take i :: pySplitSubAux sep fuel (s.drop (i + sep.length))

/-- Python `s.split(sep)` for a non-empty separator `sep`
(Python raises `ValueError` on an empty separator; the source only
splits on `"Unknown option"`). -/
def pySplitSub (s sep : List Char) : List (List Char) :=
  if sep.isEmpty then [s] else pySplitSubAux sep (s.length + 1) s

/-- Whether `pat` occurs somewhere in `s` (Python `pat in s`). -/
def containsSub (s pat : List Char) : Bool := (findSubRec pat s).isSome

/-! ## YAML values and the external parser

`yaml.safe_load` / `yaml.dump` are external collaborators (spec §1);
theorems take the loader as an abstract parameter with hypotheses stating
the behaviour the claim relies on.  Python `None` is `Yaml.null`. -/

/-- A YAML-representable Python value. -/
inductive Yaml where
  | null
  | bool (b : Bool)
  | int (n : Int)
  | str (s : List Char)
  | seq (xs : List Yaml)
  | map (kvs : List (List Char × Yaml))

/-- Whether a `Yaml` value is a mapping (Python `dict`). -/
def Yaml.isMap : Yaml → Bool
  | .map _ => true
  | _ => false

/-- A raised `yaml.YAMLError`: exception class name and message. -/
structure YErr where
  className : List Char
  message : List Char
deriving DecidableEq

/-- An abstract `yaml.safe_load`: returns a value or raises a `YAMLError`. -/
abbrev YamlLoader := List Char → Except YErr Yaml

/-! ## `frontmatter` (src/sieve/build.py lines 26-33) -/

/-- Function `frontmatter(markdown)` from `src/sieve/build.py`:

```python
def frontmatter(markdown: str) -> tuple[dict[str, Any], str]:
    MARKER = "---"
    markdown = markdown.strip()
    if markdown.startswith(MARKER):
        mapping = markdown[len(MARKER) : markdown.find(MARKER, len(MARKER))]
        markdown = markdown[len(mapping) + 2 * len(MARKER) :].lstrip()
        return yaml.safe_load(mapping), markdown
    return {}, markdown
```

A raised `yaml.YAMLError` from `safe_load` propagates (`Except.error`). -/
def frontmatter (load : YamlLoader) (markdown : List Char) : Except YErr (Yaml × List Char) :=
  let MARKER := pys "---"
  let markdown := pyStrip markdown
  if MARKER.isPrefixOf markdown then
    let mapping := pySliceI markdown (MARKER.length : Int)
      (pyFindI markdown MARKER MARKER.length)
    let body := pyLstrip (markdown.drop (mapping.length + 2 * MARKER.length))
    (load mapping).map fun y => (y, body)
  else
    .ok (Yaml.map [], markdown)

/-- The raw `---`-delimited leading region that `frontmatter` hands to
`yaml.safe_load` (the `mapping` slice of lines 28-30). -/
def fmRegion (markdown : List Char) : List Char :=
  let MARKER := pys "---"
  let markdown := pyStrip markdown
  pySliceI markdown (MARKER.length : Int) (pyFindI markdown MARKER MARKER.length)

/-- The frontmatter-extraction step of the driver
(`main_from_markdown`, src/sieve/build.py lines 115-126):

```python
try:
    fm, input_content = frontmatter(input_content)
except yaml.YAMLError as e:
    fm = {}
    ... print(":\n    Unable to find frontmatter:\n         " + ... class name ... str(e) ...)
```

On a parse error the mapping becomes `{}`, `input_content` keeps its old
value (the assignment never happened), the diagnostic carrying the
exception's class name and message is printed, and execution continues.
The second component of the result is the diagnostic (`none` when no
error was raised). -/
def frontmatterStep (load : YamlLoader) (text : List Char) :
    (Yaml × List Char) × Option YErr :=
  match frontmatter load text with
  | .ok (fm, body) => ((fm, body), none)
  | .error e => ((Yaml.map [], text), some e)

/-! ## Loader stubs used by closed witnesses and counterexamples

These are concrete instances of the abstract external `yaml.safe_load`,
agreeing with PyYAML's behaviour on the inputs at which they are used. -/

/-- Loader stub: never consulted on the inputs where it appears. -/
def stubLoader : YamlLoader := fun _ => .ok Yaml.null

/-- Loader stub mirroring PyYAML on a whitespace-only document:
`yaml.safe_load` of an empty/whitespace-only stream returns `None`. -/
def nullOnBlankLoader : YamlLoader := fun s =>
  if (pys "\n") = s then .ok Yaml.null else .error ⟨pys "YAMLError", pys "stub"⟩

/-- Loader stub mirroring PyYAML on the serialized mapping `{a: 1}`:
`yaml.safe_load("\na: 1\n\n")` is `{"a": 1}`. -/
def mapALoader : YamlLoader := fun s =>
  if s = pys "\na: 1\n\n" then .ok (Yaml.map [(pys "a", Yaml.int 1)])
  else .error ⟨pys "YAMLError", pys "stub"⟩

/-- Loader stub that raises on every input (used where the claim's
premise is that parsing fails). -/
def failLoader : YamlLoader := fun _ =>
  .error ⟨pys "ScannerError", pys "while scanning a simple key"⟩

/-! ## Converter invocation with option-stripping retry
(`main_from_markdown`, src/sieve/build.py lines 127-148)

The external `pandoc` subprocess is abstract: a function from the current
frontmatter mapping (the content written to the defaults file by
`using_defaults`) to either success or a `CalledProcessError` carrying
its captured stderr.  A fresh defaults file is written from the current
mapping before every invocation, so each invocation sees exactly the
current mapping. -/

/-- The frontmatter mapping `fm`: a Python `dict[str, Any]` in insertion
order. -/
abbrev FM := List (List Char × Yaml)

/-- Python `key in fm`. -/
def fmHasKey (fm : FM) (k : List Char) : Bool := fm.any (fun kv => kv.1 = k)

/-- Python `fm.pop(option, None)`: remove the entry with key `k` if
present (a `dict` holds each key at most once, so filtering is exact). -/
def fmPop (fm : FM) (k : List Char) : FM := fm.filter (fun kv => ¬ kv.1 = k)

/-- A `subprocess.CalledProcessError` as the retry loop consumes it:
only the captured standard error matters to lines 139-148. -/
structure PErr where
  stderr : List Char
deriving DecidableEq

/-- The abstract external converter (`pandoc`, lines 36-44), as a
function of the defaults mapping passed via `using_defaults`. -/
abbrev Pandoc := FM → Except PErr Unit

/-- Lines 146-147 given the `rfind` result `idx`:

```python
line = res[idx : res.find("\n", idx)].strip()
option = line.split("Unknown option")[1].strip().strip("'\"")
```

`none` models the `IndexError` Python would raise were
`"Unknown option"` absent from `line` (only possible when the `\n`
truncation at `res[idx:-1]` cuts into the phrase itself). -/
def parseOptionAt (res : List Char) (idx : Nat) : Option (List Char) :=
  let line := pyStrip (pySliceI res (idx : Int) (pyFindI res (pys "\n") idx))
  ((pySplitSub line (pys "Unknown option")).get? 1).map fun part =>
    pyStripChars (pyStrip part) (pys "'\x22")

/-- The full option-name extraction of lines 140-147: `none` when
`res.rfind("Unknown option")` is `-1` (the error is re-raised). -/
def parseUnknownOption (res : List Char) : Option (List Char) :=
  (pyRfind res (pys "Unknown option")).bind (parseOptionAt res)

/-- Result of one iteration of the `while True:` loop. -/
inductive StepRes where
  /-- Python `break` after a successful invocation: the loop is done with this
  final mapping. -/
  | success (fm : FM)
  /-- Python `raise`: the failure is re-raised to `main` (which exits 1). -/
  | reraise (e : PErr) (fm : FM)
  /-- Uncaught `IndexError` from `split(...)[1]` (never reached in the
  runs covered by the claims). -/
  | indexError
  /-- Pop happened (`fm.pop(option, None)`); the loop re-invokes the converter
  with a freshly written defaults file for this new mapping. -/
  | retry (fm : FM)

/-- One iteration of the retry loop (lines 127-148). -/
def buildStep (pandoc : Pandoc) (fm : FM) : StepRes :=
  match pandoc fm with
  | .ok _ => .success fm
  | .error e =>
    match pyRfind e.stderr (pys "Unknown option") with
    | none => .reraise e fm
    | some idx =>
      match parseOptionAt e.stderr idx with
      | none => .indexError
      | some k => .retry (fmPop fm k)

/-- Terminal outcomes of the `while True:` loop. -/
inductive BuildOutcome where
  | success (fm : FM)
  | reraise (e : PErr) (fm : FM)
  | indexError

/-- The `while True:` loop itself, with explicit fuel counting converter
invocations: `none` means the loop is still running after `fuel`
invocations (the source loop is unbounded). -/
def buildLoop (pandoc : Pandoc) : FM → Nat → Option BuildOutcome
  | _, 0 => none
  | fm, n + 1 =>
    match buildStep pandoc fm with
    | .success fm' => some (.success fm')
    | .reraise e fm' => some (.reraise e fm')
    | .indexError => some .indexError
    | .retry fm' => buildLoop pandoc fm' n

/-- A pandoc stub for witnesses: fails with `Unknown option 'foo'`
exactly when the key `foo` is present in the defaults mapping. -/
def stubPandoc : Pandoc := fun g =>
  if fmHasKey g (pys "foo") then .error ⟨pys "Unknown option 'foo'"⟩ else .ok ()

/-- A pandoc stub that always fails blaming an option `zzz` that is
never a key of the mapping. -/
def alwaysUnknownZzz : Pandoc := fun _ => .error ⟨pys "Unknown option 'zzz'"⟩

/-! ## Outline extraction (src/sieve/build.py lines 73-105)

`RE_MARKDOWN_HEADER = re.compile(r"^(#{1,6})\s+(.*)$", re.MULTILINE)` and

```python
def outline_markdown(markdown):
    for match in RE_MARKDOWN_HEADER.finditer(markdown):
        yield (len(match.group(1)), match.group(2).strip())
```

`finditer` scans left to right: `^` matches only at line starts, the
hash run must be 1-6 long and followed by at least one whitespace
character (`\s+` is greedy and may even consume newlines when the rest
of the line is blank), `(.*)` takes the remainder of the line, and the
next search resumes after the match. -/

/-- Characters of the current line (up to the next `'\n'`). -/
def takeLine (s : List Char) : List Char := s.takeWhile (fun c => ¬ c = '\n')

/-- Drop the current line including its terminating `'\n'`. -/
def dropLine (s : List Char) : List Char := (s.dropWhile (fun c => ¬ c = '\n')).drop 1

/-- Is the first character whitespace (`\s` can match it)? -/
def headIsSpace : List Char → Bool
  | [] => false
  | c :: _ => pyIsSpace c

/-- Worker for `outline_markdown`, positioned at a line start.  Each
iteration consumes at least one character, so fuel `|s| + 1` suffices;
structural recursion on the fuel keeps the definition kernel-reducible. -/
def outlineScanAux : Nat → List Char → List (Nat × List Char)
  | 0, _ => []
  | _, [] => []
  | fuel + 1, c :: t =>
    let s := c :: t
    let m := (s.takeWhile (fun x => x = '#')).length
    if 1 ≤ m && m ≤ 6 && headIsSpace (s.drop m) then
      let afterWs := (s.drop m).dropWhile pyIsSpace
      (m, pyStrip (takeLine afterWs)) :: outlineScanAux fuel (dropLine afterWs)
    else
      outlineScanAux fuel (dropLine s)

/-- Function `outline_markdown` (lines 76-80): the `(level, title)` pairs of the
ATX headings of the text, in order. -/
def outline_markdown (markdown : List Char) : List (Nat × List Char) :=
  outlineScanAux (markdown.length + 1) markdown

/-- A node of the nested outline dictionary built by `outline_as_tree`
(`type Node = dict[str, Any]`). -/
inductive YNode where
  | mk (entries : List (List Char × YNode))

/-- The entry list of a node. -/
def YNode.entries : YNode → List (List Char × YNode)
  | .mk es => es

/-- Python dict assignment `d[key] = value`: replace in place if the key
exists (keeping its position and the original key object), else append. -/
def dictSet : List (List Char × YNode) → List Char → YNode → List (List Char × YNode)
  | [], k, v => [(k, v)]
  | (k', v') :: rest, k, v =>
    if k' = k then (k', v) :: rest else (k', v') :: dictSet rest k v

/-- Perform `parent[title] = node` where `parent` is the node of the
tree addressed by `path` (the Python stack holds references into the
tree; a reference is modelled by its access path, which stays valid
because everything above the parent has just been popped). -/
def setPath : YNode → List (List Char) → List Char → YNode → YNode
  | n, [], k, v => .mk (dictSet n.entries k v)
  | n, p :: ps, k, v =>
    .mk (n.entries.map fun kv => if kv.1 = p then (kv.1, setPath kv.2 ps k v) else kv)

/-- The loop state of `outline_as_tree`: the tree under construction and
the stack of `(level, path-to-node)` pairs, TOP FIRST (Python's
`stack[-1]` is the head here, and `stack.pop()` drops the head). -/
abbrev OutlineState := YNode × List (Nat × List (List Char))

/-- One iteration of the `for level, title in outline:` loop
(lines 88-94):

```python
node = {}
while stack and stack[-1][0] >= level:
    stack.pop()
parent = stack[-1][1]
parent[title] = node
stack.append((level, node))
```

`none` models the `IndexError` that `stack[-1]` would raise on an empty
stack (unreachable for heading levels ≥ 1: the sentinel `(0, root)` is
never popped). -/
def outlineStep (st : OutlineState) (h : Nat × List Char) : Option OutlineState :=
  let stack' := st.2.dropWhile (fun e => h.1 ≤ e.1)
  match stack' with
  | [] => none
  | (_, ppath) :: _ =>
    some (setPath st.1 ppath h.2 (.mk []), (h.1, ppath ++ [h.2]) :: stack')

/-- The flattened tree entries returned by `outline_as_tree`: a heading
without children is a bare title, one with children a one-key mapping. -/
inductive FlatTree where
  | leaf (title : List Char)
  | branch (title : List Char) (children : List FlatTree)

mutual
/-- Function `_flat_tree` (lines 96-103): empty nodes become bare titles
(`if not value`), non-empty ones a one-key mapping over the flattened
children. -/
def flat_tree : YNode → List FlatTree
  | .mk es => flatEntries es

/-- Function `_flat_tree`, recursing over the entry list of one node. -/
def flatEntries : List (List Char × YNode) → List FlatTree
  | [] => []
  | (k, YNode.mk []) :: rest => FlatTree.leaf k :: flatEntries rest
  | (k, YNode.mk (e :: es)) :: rest =>
      FlatTree.branch k (flat_tree (YNode.mk (e :: es))) :: flatEntries rest
end

/-- Function `outline_as_tree` (lines 83-105): fold the heading sequence into the
nested dictionary, then flatten it.  `none` models the `IndexError` of
`stack[-1]` (unreachable for heading levels ≥ 1). -/
def outline_as_tree (outline : List (Nat × List Char)) : Option (List FlatTree) :=
  ((outline.foldlM outlineStep (YNode.mk [], [(0, ([] : List (List Char)))])).map
    Prod.fst).map flat_tree

mutual
/-- The keys directly under any one node are pairwise distinct, at every
depth of the tree (the invariant of claim C10). -/
def nodupKeysB : YNode → Bool
  | .mk es => nodupKeyList es

/-- Invariant `nodupKeysB` over an entry list: the key of each entry is absent
from the rest, and every value satisfies the invariant. -/
def nodupKeyList : List (List Char × YNode) → Bool
  | [] => true
  | (k, v) :: rest =>
      !(rest.any fun kv => kv.1 = k) && nodupKeysB v && nodupKeyList rest
end

/-! ## Diagram filter (src/sieve/mermaid.py)

The external pieces — `hashlib.sha1` (hex digest), `panflute`'s element
classes and `convert_text`, and the `mmdc` renderer invocation (a side
effect that does not influence the constructed elements) — are abstract;
the element construction of `mermaid` (lines 37-90) is embedded. -/

/-- Python `pathlib.PurePath.with_suffix`: replace the suffix of the final path
component (the portion from its last dot, when that dot is not the
leading character of the component) by `suffix`, or append `suffix` when
the component has none.  `suffix` includes the leading dot. -/
def withSuffix (path suffix : List Char) : List Char :=
  let nameStart : Nat :=
    match pyRfind path (pys "/") with
    | some i => i + 1
    | none => 0
  let dir := path.take nameStart
  let name := path.drop nameStart
  let stem :=
    match pyRfind name (pys ".") with
    | some j => if 0 < j then name.take j else name
    | none => name
  dir ++ stem ++ suffix

/-- The output-format → image-extension table of lines 48-53:

```python
filetype = {"html": "svg", "markdown": "svg", "pdf": "pdf", "latex": "pdf"}.get(doc.format, "png")
``` -/
def mermaidFiletype (format : List Char) : List Char :=
  if format = pys "html" then pys "svg"
  else if format = pys "markdown" then pys "svg"
  else if format = pys "pdf" then pys "pdf"
  else if format = pys "latex" then pys "pdf"
  else pys "png"

/-- The cache-file path of line 56,
`(PATH_MERMAID / sha1(code)).with_suffix(f".{filetype}")`, with the
cache directory and the external SHA-1 hex digest abstract. -/
def mermaidOutfile (pathMermaid : List Char) (sha1 : List Char → List Char)
    (code format : List Char) : List Char :=
  withSuffix (pathMermaid ++ pys "/" ++ sha1 code) (pys "." ++ mermaidFiletype format)

/-- A block element produced by the external `panflute.convert_text`;
only its inline `content` is consumed (`alt[0].content`, line 74).  The
inline type `I` is abstract. -/
structure PBlock (I : Type) where
  content : List I

/-- The attribute map of an element (an insertion-ordered Python dict of
strings). -/
abbrev AttrMap := List (List Char × List Char)

/-- The attribute value under key `k` (Python `attrs.get(k)`). -/
def attrLookup (attrs : AttrMap) (k : List Char) : Option (List Char) :=
  (attrs.find? (fun kv => kv.1 = k)).map Prod.snd

/-- Python `attrs.pop(k, None)`: the removed value (`none` when absent)
and the remaining dict (a `dict` holds each key at most once, so
filtering is exact). -/
def attrPop (attrs : AttrMap) (k : List Char) : Option (List Char) × AttrMap :=
  (attrLookup attrs k, attrs.filter (fun kv => ¬ kv.1 = k))

/-- A `CodeBlock` element as the filter reads it. -/
structure PCodeBlock where
  text : List Char
  classes : List (List Char)
  identifier : List Char
  attributes : AttrMap

/-- The `panflute.Image` the filter constructs (lines 72-80). -/
structure PImage (I : Type) where
  content : List I
  url : List Char
  title : List Char
  attributes : AttrMap
  classes : List (List Char)
  identifier : List Char

/-- The filter's return value. -/
inductive FilterResult (I : Type) where
  /-- Python `return None` (line 90): not a mermaid code block, leave it as-is. -/
  | passthrough
  /-- Uncaught `IndexError` from `alt[0]` were `convert_text` to return
  no block (unreachable: the chosen alt source is never empty). -/
  | indexError
  /-- A `Figure(Plain(image), caption=..., identifier=...)` (lines 82-87). -/
  | figure (identifier : List Char) (caption : List (PBlock I)) (image : PImage I)
  /-- A `Plain(image)` (line 88). -/
  | plain (image : PImage I)

/-- Python truthiness of a popped attribute: `None` and `""` are falsy
(the walrus tests `if (x := elem.attributes.pop(...))`). -/
def truthy : Option (List Char) → Option (List Char)
  | none => none
  | some s => if s.isEmpty then none else some s

/-- The alt-text source fed to `convert_text` (lines 67-71): the `alt`
attribute when present and truthy, else the caption text when present
and truthy, else `"Mermaid Diagram"`. -/
def altSource (altAttr capAttr : Option (List Char)) : List Char :=
  match truthy altAttr with
  | some s => s
  | none =>
    match truthy capAttr with
    | some c => c
    | none => pys "Mermaid Diagram"

/-- Function `mermaid(elem, doc)` (lines 37-90) applied to a code-block element.
The `mermaid_compile` call only renders the image file (stdout/stderr to
the diagnostic stream) and does not influence the returned element, so
it is omitted here; `convert_text` and `sha1` are the abstract external
collaborators. -/
def mermaid {I : Type} (convert_text : List Char → List (PBlock I))
    (sha1 : List Char → List Char) (pathMermaid : List Char)
    (elem : PCodeBlock) (format : List Char) : FilterResult I :=
  if (pys "mermaid") ∈ elem.classes then
    let outfile := mermaidOutfile pathMermaid sha1 elem.text format
    let pc := attrPop elem.attributes (pys "caption")
    let caption : Option (List (PBlock I)) := (truthy pc.1).map convert_text
    let pa := attrPop pc.2 (pys "alt")
    let alt := convert_text (altSource pa.1 pc.1)
    match alt.head? with
    | none => .indexError
    | some b =>
      let pt := attrPop pa.2 (pys "title")
      let image : PImage I :=
        { content := b.content
          url := outfile
          title := pt.1.getD []
          attributes := pt.2
          classes := elem.classes
          identifier := match caption with | some _ => elem.identifier | none => [] }
      match caption with
      | some capBlocks => .figure elem.identifier capBlocks image
      | none => .plain image
  else
    .passthrough

/-- Inline model for witnesses and counterexamples: an inline is a
string, and `convert_text` wraps the source text in one block. -/
def stubConvert : List Char → List (PBlock (List Char)) := fun s => [⟨[s]⟩]

/-- SHA-1 stub for witnesses: a fixed 40-hex-character digest
(the digest of the empty string). -/
def stubSha1 : List Char → List Char :=
  fun _ => pys "da39a3ee5e6b4b0d3255bfef95601890afd80709"

/-! ## Lemmas and claim theorems -/

/-- Boolean `List.isPrefixOf` agrees with the prefix order (alias used throughout). -/
theorem prefixOf_iff {l₁ l₂ : List Char} : l₁.isPrefixOf l₂ ↔ l₁ <+: l₂ :=
  List.isPrefixOf_iff_prefix

/-- An occurrence reported by `findSubRec` lies inside the string. -/
theorem findSubRec_bound (pat : List Char) :
    ∀ (t : List Char) (j : Nat), findSubRec pat t = some j → j + pat.length ≤ t.length := by
  intro t
  induction t with
  | nil =>
    intro j hj
    simp only [findSubRec] at hj
    split at hj
    · simp_all [List.isEmpty_iff]
    · simp_all
  | cons c u ih =>
    intro j hj
    simp only [findSubRec] at hj
    split at hj
    · rename_i hpre
      have hlen := (prefixOf_iff.mp hpre).length_le
      simp only [Option.some.injEq] at hj
      simp only [List.length_cons] at hlen ⊢
      omega
    · cases hfind : findSubRec pat u with
      | none => simp [hfind] at hj
      | some k =>
        simp only [hfind, Option.map_some', Option.some.injEq] at hj
        have := ih k hfind
        simp only [List.length_cons]
        omega

/-- C6 counterexample helper facts are inlined in the theorem below. -/
theorem frontmatter_no_marker (load : YamlLoader) (text : List Char)
    (h : (pys "---").isPrefixOf (pyStrip text) = false) :
    frontmatter load text = .ok (Yaml.map [], pyStrip text) := by
  unfold frontmatter
  simp [h]

/-- C6 (counterexample): on the input `"hello\n"`, which does not begin
with a `---` marker line, `frontmatter` returns the text with its
trailing newline stripped — not the original input verbatim as the
claim states. -/
theorem c6_counterexample :
    frontmatter stubLoader (pys "hello\n") = .ok (Yaml.map [], pys "hello") ∧
    pys "hello" ≠ pys "hello\n" := by
  exact ⟨rfl, by decide⟩

/-- C6 (amended): for every input text that (after Python `str.strip`)
does not begin with `---`, `frontmatter` returns the empty mapping and
the input text with leading and trailing whitespace stripped (the
original text up to that stripping). -/
theorem c6_no_marker_amended (load : YamlLoader) (text : List Char)
    (h : (pys "---").isPrefixOf (pyStrip text) = false) :
    frontmatter load text = .ok (Yaml.map [], pyStrip text) :=
  frontmatter_no_marker load text h

/-- C6 witness: the amended theorem evaluated at the concrete input
`"some markdown"`. -/
theorem c6_witness :
    frontmatter stubLoader (pys "some markdown") = .ok (Yaml.map [], pyStrip (pys "some markdown")) :=
  c6_no_marker_amended stubLoader (pys "some markdown") (by decide)

/-- C9: on `"---\n---\nbody"` (empty frontmatter block) the region handed
to the YAML loader is the single newline, which PyYAML parses to `None`
(hypothesis `h`); `frontmatter` then returns Python `None` — not a
mapping — as its first component, together with the body. -/
theorem c9_empty_block_none (load : YamlLoader)
    (h : load (pys "\n") = .ok Yaml.null) :
    frontmatter load (pys "---\n---\nbody") = .ok (Yaml.null, pys "body") ∧
    Yaml.null.isMap = false := by
  constructor
  · have h1 : frontmatter load (pys "---\n---\nbody")
        = (load (pys "\n")).map (fun y => (y, pys "body")) := rfl
    rw [h1, h]
    rfl
  · rfl

/-- C9 witness: evaluated with the concrete loader stub that mirrors
PyYAML on the whitespace-only document. -/
theorem c9_witness :
    frontmatter nullOnBlankLoader (pys "---\n---\nbody") = .ok (Yaml.null, pys "body") ∧
    Yaml.null.isMap = false :=
  c9_empty_block_none nullOnBlankLoader rfl

/-- C3: for every input whose leading `---`-delimited region fails to
parse (the loader raises `e` on the region), the driver's
frontmatter-extraction step returns the empty mapping `{}` together with
the diagnostic carrying the exception (class name and message), and the
parse error is not propagated any further: `frontmatterStep` returns
normally.  (In the source the exception is raised inside `frontmatter`
and caught by `main_from_markdown` at lines 115-126.) -/
theorem c3_parse_error_recovered (load : YamlLoader) (text : List Char) (e : YErr)
    (hmark : (pys "---").isPrefixOf (pyStrip text) = true)
    (hload : load (fmRegion text) = .error e) :
    frontmatterStep load text = ((Yaml.map [], text), some e) := by
  have hfm : frontmatter load text = .error e := by
    unfold frontmatter
    unfold fmRegion at hload
    simp only [hmark, if_true, hload, Except.map]
  unfold frontmatterStep
  rw [hfm]

/-- C3 witness: a concrete document whose frontmatter region fails to
parse, with the always-raising loader stub. -/
theorem c3_witness :
    frontmatterStep failLoader (pys "---\nfoo: [\n---\nrest") =
      ((Yaml.map [], pys "---\nfoo: [\n---\nrest"),
        some ⟨pys "ScannerError", pys "while scanning a simple key"⟩) :=
  c3_parse_error_recovered failLoader (pys "---\nfoo: [\n---\nrest")
    ⟨pys "ScannerError", pys "while scanning a simple key"⟩ (by decide) rfl

/-- When the invocation fails and the stderr parse of lines 140-147
yields an option name, the iteration pops that key and retries. -/
theorem buildStep_retry_of_parse (pandoc : Pandoc) (fm : FM) (e : PErr) (k : List Char)
    (herr : pandoc fm = .error e) (hparse : parseUnknownOption e.stderr = some k) :
    buildStep pandoc fm = .retry (fmPop fm k) := by
  unfold parseUnknownOption at hparse
  cases hidx : pyRfind e.stderr (pys "Unknown option") with
  | none =>
    rw [hidx] at hparse
    exact Option.noConfusion hparse
  | some idx =>
    rw [hidx] at hparse
    have hparse' : parseOptionAt e.stderr idx = some k := hparse
    unfold buildStep
    simp only [herr, hidx, hparse']

/-- Popping a key removes it from the mapping. -/
theorem fmHasKey_fmPop_self (fm : FM) (k : List Char) :
    fmHasKey (fmPop fm k) k = false := by
  induction fm with
  | nil => rfl
  | cons kv fm ih =>
    by_cases h : kv.1 = k
    · simpa [fmPop, fmHasKey, h] using ih
    · simpa [fmPop, fmHasKey, h] using ih

/-- Popping a present key strictly shrinks the mapping. -/
theorem fmPop_length_lt (fm : FM) (k : List Char) (h : fmHasKey fm k = true) :
    (fmPop fm k).length < fm.length := by
  induction fm with
  | nil => simp [fmHasKey] at h
  | cons kv fm ih =>
    by_cases hk : kv.1 = k
    · have hle : (fmPop fm k).length ≤ fm.length := List.length_filter_le _ _
      have heq : fmPop (kv :: fm) k = fmPop fm k := by
        simp [fmPop, List.filter_cons, hk]
      rw [heq, List.length_cons]
      omega
    · have hh : fmHasKey fm k = true := by
        simp only [fmHasKey, List.any_cons, Bool.or_eq_true, decide_eq_true_eq] at h
        rcases h with h | h
        · exact absurd h hk
        · exact h
      have hlt := ih hh
      have heq : fmPop (kv :: fm) k = kv :: fmPop fm k := by
        simp [fmPop, List.filter_cons, hk]
      rw [heq, List.length_cons, List.length_cons]
      omega

/-- C1: (i) whenever the converter fails and the error-output parse of
lines 140-147 yields an option name `k`, the loop removes `k` from the
mapping and re-invokes the converter with the new mapping (a freshly
written defaults file); (ii) with a converter that fails with
`Unknown option 'foo'` exactly when `foo` is a key of the defaults and
succeeds otherwise, the driver terminates successfully within two
invocations and the final mapping does not contain `foo`. -/
theorem c1_unknown_option_strip_retry :
    (∀ (pandoc : Pandoc) (fm : FM) (e : PErr) (k : List Char),
        pandoc fm = .error e → parseUnknownOption e.stderr = some k →
        buildStep pandoc fm = .retry (fmPop fm k)) ∧
    (∀ (pandoc : Pandoc) (fm : FM),
        (∀ g, fmHasKey g (pys "foo") = true →
          pandoc g = .error ⟨pys "Unknown option 'foo'"⟩) →
        (∀ g, fmHasKey g (pys "foo") = false → pandoc g = .ok ()) →
        ∃ fm', buildLoop pandoc fm 2 = some (.success fm') ∧
          fmHasKey fm' (pys "foo") = false) := by
  refine ⟨buildStep_retry_of_parse, ?_⟩
  intro pandoc fm h1 h2
  cases hkey : fmHasKey fm (pys "foo") with
  | false =>
    refine ⟨fm, ?_, hkey⟩
    have hstep : buildStep pandoc fm = .success fm := by
      unfold buildStep; rw [h2 fm hkey]
    simp only [buildLoop, hstep]
  | true =>
    have herr := h1 fm hkey
    have hparse : parseUnknownOption (pys "Unknown option 'foo'") = some (pys "foo") := rfl
    have hstep := buildStep_retry_of_parse pandoc fm _ (pys "foo") herr hparse
    have hkey' := fmHasKey_fmPop_self fm (pys "foo")
    have hstep' : buildStep pandoc (fmPop fm (pys "foo")) = .success (fmPop fm (pys "foo")) := by
      unfold buildStep; rw [h2 _ hkey']
    refine ⟨fmPop fm (pys "foo"), ?_, hkey'⟩
    simp only [buildLoop, hstep, hstep']

/-- C1 witness: both parts evaluated at the concrete stub converter and
the concrete mapping `{foo: true, toc: true}`. -/
theorem c1_witness :
    (buildStep stubPandoc [(pys "foo", Yaml.bool true)]
      = .retry (fmPop [(pys "foo", Yaml.bool true)] (pys "foo"))) ∧
    (∃ fm', buildLoop stubPandoc [(pys "foo", Yaml.bool true), (pys "toc", Yaml.bool true)] 2
        = some (.success fm') ∧ fmHasKey fm' (pys "foo") = false) :=
  ⟨c1_unknown_option_strip_retry.1 stubPandoc [(pys "foo", Yaml.bool true)]
      ⟨pys "Unknown option 'foo'"⟩ (pys "foo") rfl rfl,
    c1_unknown_option_strip_retry.2 stubPandoc
      [(pys "foo", Yaml.bool true), (pys "toc", Yaml.bool true)]
      (fun g hg => by simp only [stubPandoc, hg, if_true])
      (fun g hg => by simp only [stubPandoc, hg, Bool.false_eq_true, if_false])⟩

/-- C4 (counterexample): the claim bounds the number of invocations by
the number of keys plus one for every failure sequence whose error
output names a quoted option, "including names that are not keys".  With
the empty mapping (bound `0 + 1 = 1`) and a converter always failing
with `Unknown option 'zzz'`, the loop is still running after 1
invocation: `fm.pop('zzz', None)` removes nothing and the loop never
makes progress. -/
theorem c4_counterexample : buildLoop alwaysUnknownZzz [] 1 = none := rfl

/-- Fuel-monotonicity: once the loop has terminated it stays terminated
for any larger invocation budget. -/
theorem buildLoop_mono (pandoc : Pandoc) :
    ∀ (n m : Nat) (fm : FM) (o : BuildOutcome),
      buildLoop pandoc fm n = some o → n ≤ m → buildLoop pandoc fm m = some o := by
  intro n
  induction n with
  | zero => intro m fm o h; simp [buildLoop] at h
  | succ n ih =>
    intro m fm o h hm
    obtain ⟨m', rfl⟩ : ∃ m', m = m' + 1 := ⟨m - 1, by omega⟩
    simp only [buildLoop] at h ⊢
    cases hstep : buildStep pandoc fm with
    | success fm' => rw [hstep] at h; exact h
    | reraise e fm' => rw [hstep] at h; exact h
    | indexError => rw [hstep] at h; exact h
    | retry fm' =>
      rw [hstep] at h
      exact ih m' fm' o h (by omega)

/-- Core of the amended C4: if every converter failure names a key of
the mapping it was invoked with, the loop finishes successfully within
`|keys| + 1` invocations (each failing invocation strictly shrinks the
mapping). -/
theorem buildLoop_terminates (pandoc : Pandoc)
    (h : ∀ g e, pandoc g = .error e →
      ∃ k, parseUnknownOption e.stderr = some k ∧ fmHasKey g k = true) :
    ∀ (N : Nat) (fm : FM), fm.length ≤ N →
      ∃ fm', buildLoop pandoc fm (N + 1) = some (.success fm') := by
  intro N
  induction N with
  | zero =>
    intro fm hlen
    have hnil : fm = [] := List.length_eq_zero.mp (Nat.le_zero.mp hlen)
    subst hnil
    cases hp : pandoc [] with
    | ok u =>
      refine ⟨[], ?_⟩
      have hstep : buildStep pandoc [] = .success [] := by unfold buildStep; rw [hp]
      simp only [buildLoop, hstep]
    | error e =>
      obtain ⟨k, _, hkey⟩ := h [] e hp
      simp [fmHasKey] at hkey
  | succ N ih =>
    intro fm hlen
    cases hp : pandoc fm with
    | ok u =>
      refine ⟨fm, ?_⟩
      have hstep : buildStep pandoc fm = .success fm := by unfold buildStep; rw [hp]
      simp only [buildLoop, hstep]
    | error e =>
      obtain ⟨k, hparse, hkey⟩ := h fm e hp
      have hstep := buildStep_retry_of_parse pandoc fm e k hp hparse
      have hlt := fmPop_length_lt fm k hkey
      obtain ⟨fm', hloop⟩ := ih (fmPop fm k) (by omega)
      refine ⟨fm', ?_⟩
      simp only [buildLoop, hstep]
      exact hloop

/-- C4 (amended): the retry loop makes at most `|keys| + 1` converter
invocations — and hence terminates — provided every failure's reported
option name is a key of the mapping it was invoked with; when a failure
reports a name that is not a key, the mapping is unchanged and the loop
never terminates (shown for the converter that always reports `zzz`). -/
theorem c4_termination_amended :
    (∀ (pandoc : Pandoc) (fm : FM),
        (∀ g e, pandoc g = .error e →
          ∃ k, parseUnknownOption e.stderr = some k ∧ fmHasKey g k = true) →
        ∃ fm', buildLoop pandoc fm (fm.length + 1) = some (.success fm')) ∧
    (∀ n, buildLoop alwaysUnknownZzz [] n = none) := by
  constructor
  · intro pandoc fm h
    exact buildLoop_terminates pandoc h fm.length fm le_rfl
  · intro n
    induction n with
    | zero => rfl
    | succ n ih =>
      have hstep : buildStep alwaysUnknownZzz [] = .retry [] := rfl
      simp only [buildLoop, hstep]
      exact ih

/-- C4 witness: the amended bound evaluated at the stub converter and a
two-key mapping, and the non-termination conjunct at budget 7. -/
theorem c4_witness :
    (∃ fm', buildLoop stubPandoc [(pys "foo", Yaml.null), (pys "x", Yaml.int 3)] 3
        = some (.success fm')) ∧
    buildLoop alwaysUnknownZzz [] 7 = none :=
  ⟨c4_termination_amended.1 stubPandoc [(pys "foo", Yaml.null), (pys "x", Yaml.int 3)]
      (fun g e hge => by
        by_cases hg : fmHasKey g (pys "foo") = true
        · refine ⟨pys "foo", ?_, hg⟩
          simp only [stubPandoc, hg, if_true, Except.error.injEq] at hge
          rw [← hge]
          rfl
        · simp only [stubPandoc, Bool.not_eq_true] at hg
          simp [stubPandoc, hg] at hge),
    c4_termination_amended.2 7⟩

/-! ### String lemmas supporting the frontmatter round-trip analysis -/

/-- If `findSubRec` finds nothing, `pat` is not a prefix of any suffix. -/
theorem findSubRec_none (pat : List Char) :
    ∀ (s : List Char), findSubRec pat s = none →
      ∀ j, pat.isPrefixOf (s.drop j) = false := by
  intro s
  induction s with
  | nil =>
    intro h j
    simp only [findSubRec] at h
    split at h
    · exact absurd h (by simp)
    · rename_i hne
      simp only [List.drop_nil]
      cases pat with
      | nil => simp [List.isEmpty_iff] at hne
      | cons c t => rfl
  | cons c t ih =>
    intro h j
    simp only [findSubRec] at h
    split at h
    · exact absurd h (by simp)
    · rename_i hne
      have ht : findSubRec pat t = none := by
        cases hf : findSubRec pat t with
        | none => rfl
        | some k => rw [hf] at h; simp at h
      cases j with
      | zero =>
        simp only [List.drop_zero]
        exact Bool.not_eq_true _ ▸ (by simpa using hne)
      | succ j =>
        simp only [List.drop_succ_cons]
        exact ih ht j

/-- If `pat` occurs nowhere strictly inside `X` (as a window of
`X ++ Y`) but is a prefix of `Y`, the first occurrence in `X ++ Y` is
exactly at `X.length`. -/
theorem findSubRec_append_first (pat : List Char) :
    ∀ (X Y : List Char),
      (∀ j, j < X.length → pat.isPrefixOf ((X ++ Y).drop j) = false) →
      pat.isPrefixOf Y = true →
      findSubRec pat (X ++ Y) = some X.length := by
  intro X
  induction X with
  | nil =>
    intro Y _ hY
    cases Y with
    | nil =>
      have : pat = [] := by
        cases pat with
        | nil => rfl
        | cons c t => simp [List.isPrefixOf] at hY
      subst this
      rfl
    | cons c t =>
      simp only [List.nil_append, findSubRec, hY, if_true, List.length_nil]
  | cons c X' ih =>
    intro Y h hY
    have h0 : pat.isPrefixOf (c :: (X' ++ Y)) = false := by
      have := h 0 (by simp)
      simpa using this
    simp only [List.cons_append, findSubRec, List.append_eq, h0, Bool.false_eq_true, if_false]
    have hrec := ih Y (fun j hj => by
      have := h (j + 1) (by simp; omega)
      simpa using this) hY
    rw [hrec]
    simp

/-- Every character of the marker `"---"` is a dash. -/
theorem dashAt (i : Nat) (h : i < 3) : (pys "---")[i]? = some '-' := by
  interval_cases i <;> rfl

/-- No window of `A ++ T` starting inside `A` matches `"---"`, provided
`"---"` does not occur in `A` and `A` ends with a newline: a window
crossing the boundary would have to read the final `'\n'` of `A` as a
dash. -/
theorem no_marker_window (A T : List Char)
    (hlast : A.getLast? = some '\n')
    (h1 : ∀ j, (pys "---").isPrefixOf (A.drop j) = false) :
    ∀ j, j < A.length → (pys "---").isPrefixOf ((A ++ T).drop j) = false := by
  intro j hj
  by_cases hcase : j + 3 ≤ A.length
  · rw [List.drop_append_of_le_length (by omega)]
    by_contra hcon
    have hpre : pys "---" <+: A.drop j ++ T :=
      prefixOf_iff.mp (Bool.not_eq_false _ ▸ hcon)
    have hlen3 : (pys "---").length = 3 := rfl
    have htake : pys "---" = (A.drop j ++ T).take 3 := by
      have := List.prefix_iff_eq_take.mp hpre
      rwa [hlen3] at this
    rw [List.take_append_of_le_length (by simp; omega)] at htake
    have : pys "---" <+: A.drop j := by
      rw [List.prefix_iff_eq_take, hlen3]
      exact htake
    have := prefixOf_iff.mpr this
    rw [h1 j] at this
    exact Bool.noConfusion this
  · by_contra hcon
    have hpre : pys "---" <+: (A ++ T).drop j :=
      prefixOf_iff.mp (Bool.not_eq_false _ ▸ hcon)
    -- the window reaches the last character of `A`, which is `'\n'`
    have h3 : (pys "---").length = 3 := rfl
    have htk : pys "---" = ((A ++ T).drop j).take 3 := by
      have := List.prefix_iff_eq_take.mp hpre
      rwa [h3] at this
    have hi3 : A.length - 1 - j < 3 := by omega
    have hq1 : (pys "---")[A.length - 1 - j]? = some '-' := dashAt _ hi3
    have hq2 : (pys "---")[A.length - 1 - j]? = (A ++ T)[j + (A.length - 1 - j)]? := by
      rw [htk, List.getElem?_take_of_lt hi3, List.getElem?_drop]
    have hq3 : (A ++ T)[j + (A.length - 1 - j)]? = A[j + (A.length - 1 - j)]? :=
      List.getElem?_append_left (by omega)
    have hq4 : A[j + (A.length - 1 - j)]? = some '\n' := by
      rw [show j + (A.length - 1 - j) = A.length - 1 from by omega,
        ← List.getLast?_eq_getElem?]
      exact hlast
    rw [hq1, hq3, hq4] at hq2
    exact absurd (Option.some.inj hq2) (by decide)

/-- Applying `rstrip` to a concatenation whose right part keeps a non-whitespace
character only strips inside the right part. -/
theorem pyRstrip_append (X B : List Char) (h : pyRstrip B ≠ []) :
    pyRstrip (X ++ B) = X ++ pyRstrip B := by
  unfold pyRstrip at *
  rw [List.reverse_append, List.dropWhile_append]
  have hne : (B.reverse.dropWhile pyIsSpace).isEmpty = false := by
    cases hB : B.reverse.dropWhile pyIsSpace with
    | nil => rw [hB] at h; simp at h
    | cons a l => rfl
  rw [hne]
  simp only [Bool.false_eq_true, if_false, List.reverse_append, List.reverse_reverse]

/-- Applying `rstrip` to a concatenation with an all-whitespace right part. -/
theorem pyRstrip_append_ws (X B : List Char) (h : ∀ c ∈ B, pyIsSpace c = true) :
    pyRstrip (X ++ B) = pyRstrip X := by
  unfold pyRstrip
  rw [List.reverse_append, List.dropWhile_append]
  have hnil : B.reverse.dropWhile pyIsSpace = [] := by
    rw [List.dropWhile_eq_nil_iff]
    intro x hx
    exact h x (List.mem_reverse.mp hx)
  rw [hnil]
  simp

/-- Python `rstrip` erases the string exactly when it is all whitespace. -/
theorem pyRstrip_eq_nil_iff (B : List Char) :
    pyRstrip B = [] ↔ ∀ c ∈ B, pyIsSpace c = true := by
  unfold pyRstrip
  rw [List.reverse_eq_nil_iff, List.dropWhile_eq_nil_iff]
  constructor
  · intro h c hc
    exact h c (List.mem_reverse.mpr hc)
  · intro h c hc
    exact h c (List.mem_reverse.mp hc)

/-- Python `lstrip` keeps a string whose head is not whitespace. -/
theorem pyLstrip_cons_of_not_space (c : Char) (t : List Char) (h : pyIsSpace c = false) :
    pyLstrip (c :: t) = c :: t := by
  unfold pyLstrip
  rw [List.dropWhile_cons, h]
  simp

/-- Evaluation of `frontmatter` on any input whose stripped form is an
opening marker, a region `A` (ending in `'\n'` and free of `---`), a
closing marker, and a tail `T`. -/
theorem frontmatter_strip_eq (load : YamlLoader) (input A T : List Char) (M : Yaml)
    (hstrip : pyStrip input = pys "---" ++ A ++ pys "---" ++ T)
    (hlastA : A.getLast? = some '\n')
    (hnoA : ∀ j, (pys "---").isPrefixOf (A.drop j) = false)
    (hload : load A = .ok M) :
    frontmatter load input = .ok (M, pyLstrip T) := by
  have hcond : (pys "---").isPrefixOf (pys "---" ++ A ++ pys "---" ++ T) = true :=
    prefixOf_iff.mpr ⟨A ++ pys "---" ++ T, by simp [List.append_assoc]⟩
  have hdrop3 : (pys "---" ++ A ++ pys "---" ++ T).drop 3 = A ++ (pys "---" ++ T) := by
    have h1 : pys "---" ++ A ++ pys "---" ++ T = pys "---" ++ (A ++ (pys "---" ++ T)) := by
      simp [List.append_assoc]
    rw [h1, List.drop_left' (by rfl)]
  have hprefixT : (pys "---").isPrefixOf (pys "---" ++ T) = true :=
    prefixOf_iff.mpr ⟨T, rfl⟩
  have hfind : findSubRec (pys "---") (A ++ (pys "---" ++ T)) = some A.length :=
    findSubRec_append_first (pys "---") A (pys "---" ++ T)
      (no_marker_window A (pys "---" ++ T) hlastA hnoA) hprefixT
  have hFindI : pyFindI (pys "---" ++ A ++ pys "---" ++ T) (pys "---") 3
      = ((A.length + 3 : Nat) : Int) := by
    unfold pyFindI pyFindFrom
    rw [hdrop3, hfind]
    rfl
  have hlens : (pys "---" ++ A ++ pys "---" ++ T).length = A.length + T.length + 6 := by
    simp only [List.length_append]
    have : (pys "---").length = 3 := rfl
    omega
  have hmapping : pySliceI (pys "---" ++ A ++ pys "---" ++ T) ((3 : Nat) : Int)
      ((A.length + 3 : Nat) : Int) = A := by
    unfold pySliceI pyIdx
    rw [if_neg (by omega), if_neg (by omega)]
    rw [Int.toNat_natCast, Int.toNat_natCast, hlens]
    rw [Nat.min_eq_left (by omega), Nat.min_eq_left (by omega)]
    have h1 : pys "---" ++ A ++ pys "---" ++ T = (pys "---" ++ A) ++ (pys "---" ++ T) := by
      simp [List.append_assoc]
    rw [h1, List.take_left' (by
      have h3 : (pys "---").length = 3 := rfl
      simp only [List.length_append, h3]
      omega)]
    rw [List.drop_left' (by rfl)]
  have hbody : (pys "---" ++ A ++ pys "---" ++ T).drop (A.length + 2 * 3)
      = T := by
    have h1 : pys "---" ++ A ++ pys "---" ++ T = (pys "---" ++ A ++ pys "---") ++ T := by
      simp [List.append_assoc]
    rw [h1, List.drop_left']
    simp only [List.length_append]
    have : (pys "---").length = 3 := rfl
    omega
  simp only [frontmatter, hstrip, hcond, if_true]
  have hml : (pys "---").length = 3 := rfl
  rw [hml, hFindI, hmapping, hbody, hload]
  rfl

/-- C2 (counterexample): take `M = {a: 1}` (PyYAML dump `"a: 1\n"`) and
`body = "b\n"`.  Extracting frontmatter from
`"---\n" + dump(M) + "\n---\n" + body` gives back `M` but the body
`"b"`, not `"b\n"`: the trailing whitespace of the body is stripped, so
the pair is not `(M, body)` as the claim states. -/
theorem c2_counterexample :
    frontmatter mapALoader (pys "---\na: 1\n\n---\nb\n")
      = .ok (Yaml.map [(pys "a", Yaml.int 1)], pys "b") ∧
    pys "b" ≠ pys "b\n" :=
  ⟨rfl, by decide⟩

/-- C2 (amended): for every mapping `M`, serialized region `D` that
parses back to `M` and contains no occurrence of `---`, and every body
`B`, extracting frontmatter from `"---\n" + D + "\n---\n" + B` returns
`M` (up to YAML normalization, which the loader hypothesis absorbs)
together with `B` stripped of leading and trailing whitespace — not `B`
verbatim. -/
theorem c2_roundtrip_amended (load : YamlLoader) (D B : List Char) (M : Yaml)
    (h1 : containsSub (pys "\n" ++ D ++ pys "\n") (pys "---") = false)
    (h2 : load (pys "\n" ++ D ++ pys "\n") = .ok M) :
    frontmatter load (pys "---\n" ++ D ++ pys "\n---\n" ++ B)
      = .ok (M, pyStrip B) := by
  have hnone : findSubRec (pys "---") (pys "\n" ++ D ++ pys "\n") = none := by
    unfold containsSub at h1
    cases hf : findSubRec (pys "---") (pys "\n" ++ D ++ pys "\n") with
    | none => rfl
    | some k => rw [hf] at h1; simp at h1
  have h1' := findSubRec_none (pys "---") (pys "\n" ++ D ++ pys "\n") hnone
  have hlastA : (pys "\n" ++ D ++ pys "\n").getLast? = some '\n' := by
    have h : pys "\n" ++ D ++ pys "\n" = (pys "\n" ++ D) ++ ['\n'] := rfl
    rw [h, List.getLast?_concat]
  by_cases hB : pyRstrip B = []
  · -- the body is all whitespace: everything after the closing marker is stripped
    have hws : ∀ c ∈ pys "\n" ++ B, pyIsSpace c = true := by
      intro c hc
      rcases List.mem_append.mp hc with hc | hc
      · have hnl : pys "\n" = ['\n'] := rfl
        rw [hnl] at hc
        have : c = '\n' := by simpa using hc
        rw [this]; rfl
      · exact (pyRstrip_eq_nil_iff B).mp hB c hc
    have hr : pyRstrip (pys "---\n" ++ D ++ pys "\n---\n" ++ B)
        = pyRstrip (pys "---\n" ++ D ++ pys "\n---") := by
      have h0 : pys "---\n" ++ D ++ pys "\n---\n" ++ B
          = (pys "---\n" ++ D ++ pys "\n---") ++ (pys "\n" ++ B) := by
        have e : pys "\n---\n" = pys "\n---" ++ pys "\n" := rfl
        rw [e]
        simp [List.append_assoc]
      rw [h0, pyRstrip_append_ws _ _ hws]
    have hr2 : pyRstrip (pys "---\n" ++ D ++ pys "\n---")
        = pys "---\n" ++ D ++ pys "\n---" := by
      have h0 : pys "---\n" ++ D ++ pys "\n---"
          = (pys "---\n" ++ D ++ pys "\n--") ++ ['-'] := by
        have e : pys "\n---" = pys "\n--" ++ ['-'] := rfl
        rw [e]
        simp [List.append_assoc]
      rw [h0, pyRstrip_append _ ['-'] (by decide)]
      rfl
    have hstrip : pyStrip (pys "---\n" ++ D ++ pys "\n---\n" ++ B)
        = pys "---" ++ (pys "\n" ++ D ++ pys "\n") ++ pys "---" ++ [] := by
      unfold pyStrip
      rw [hr, hr2]
      have hx : pys "---\n" = '-' :: pys "--\n" := rfl
      rw [hx]
      simp only [List.cons_append]
      rw [pyLstrip_cons_of_not_space _ _ (by rfl)]
      have e1 : pys "--\n" = pys "--" ++ pys "\n" := rfl
      have e2 : pys "\n---" = pys "\n" ++ pys "---" := rfl
      rw [e1, e2]
      simp only [List.append_assoc, List.cons_append, List.append_nil]
      rfl
    rw [frontmatter_strip_eq load _ (pys "\n" ++ D ++ pys "\n") [] M hstrip hlastA h1' h2]
    have hsB : pyStrip B = [] := by
      unfold pyStrip
      rw [hB]
      rfl
    rw [hsB]
    rfl
  · -- the stripped body is non-empty and survives after the closing marker
    have hr : pyRstrip (pys "---\n" ++ D ++ pys "\n---\n" ++ B)
        = pys "---\n" ++ D ++ pys "\n---\n" ++ pyRstrip B :=
      pyRstrip_append (pys "---\n" ++ D ++ pys "\n---\n") B hB
    have hstrip : pyStrip (pys "---\n" ++ D ++ pys "\n---\n" ++ B)
        = pys "---" ++ (pys "\n" ++ D ++ pys "\n") ++ pys "---" ++ (pys "\n" ++ pyRstrip B) := by
      unfold pyStrip
      rw [hr]
      have hx : pys "---\n" = '-' :: pys "--\n" := rfl
      rw [hx]
      simp only [List.cons_append]
      rw [pyLstrip_cons_of_not_space _ _ (by rfl)]
      have e1 : pys "--\n" = pys "--" ++ pys "\n" := rfl
      have e2 : pys "\n---\n" = pys "\n" ++ (pys "---" ++ pys "\n") := rfl
      rw [e1, e2]
      simp only [List.append_assoc, List.cons_append]
      rfl
    rw [frontmatter_strip_eq load _ (pys "\n" ++ D ++ pys "\n") (pys "\n" ++ pyRstrip B) M
      hstrip hlastA h1' h2]
    have hlb : pyLstrip (pys "\n" ++ pyRstrip B) = pyStrip B := rfl
    rw [hlb]

/-- C2 witness: the amended round-trip evaluated at the concrete mapping
`{a: 1}` (serialized as `"a: 1\n"`) and body `"b\n"`. -/
theorem c2_witness :
    frontmatter mapALoader (pys "---\n" ++ pys "a: 1\n" ++ pys "\n---\n" ++ pys "b\n")
      = .ok (Yaml.map [(pys "a", Yaml.int 1)], pyStrip (pys "b\n")) :=
  c2_roundtrip_amended mapALoader (pys "a: 1\n") (pys "b\n")
    (Yaml.map [(pys "a", Yaml.int 1)]) (by decide) rfl

/-! ### Lemmas about the outline tree fold -/

/-- Dict assignment of a fresh key appends the entry at the end. -/
theorem dictSet_append (es : List (List Char × YNode)) (k : List Char) (v : YNode)
    (h : ∀ kv ∈ es, ¬ kv.1 = k) : dictSet es k v = es ++ [(k, v)] := by
  induction es with
  | nil => rfl
  | cons kv rest ih =>
    simp only [dictSet]
    rw [if_neg (h kv (by simp))]
    rw [ih (fun kv' hkv' => h kv' (by simp [hkv']))]
    rfl

/-- Flattening a node whose children are all childless gives the bare
titles, in order. -/
theorem flatEntries_leaves (ts : List (List Char)) :
    flatEntries (ts.map (fun t => (t, YNode.mk []))) = ts.map FlatTree.leaf := by
  induction ts with
  | nil => rfl
  | cons t ts ih => simp only [List.map_cons, flatEntries, ih]

/-- Processing one heading at level `l ≥ 1` from a state whose stack is
`(l, q)` over the root sentinel: the old top is popped, the title is
appended under the root, and the new node becomes the top. -/
theorem outlineStep_sibling (l : Nat) (hl : 1 ≤ l) (es : List (List Char × YNode))
    (q : List (List Char)) (t : List Char) (hfresh : ∀ kv ∈ es, ¬ kv.1 = t) :
    outlineStep (YNode.mk es, [(l, q), (0, [])]) (l, t)
      = some (YNode.mk (es ++ [(t, YNode.mk [])]), [(l, [t]), (0, [])]) := by
  unfold outlineStep
  simp only [List.dropWhile_cons]
  rw [if_pos (by simp), if_neg (by simp; omega)]
  simp only [setPath, YNode.entries]
  rw [dictSet_append es t (YNode.mk []) hfresh]
  rfl

/-- Processing the first heading (level `l ≥ 1`) from the initial state:
the root sentinel survives the pop loop and receives the title. -/
theorem outlineStep_first (l : Nat) (hl : 1 ≤ l) (t : List Char) :
    outlineStep (YNode.mk [], [(0, [])]) (l, t)
      = some (YNode.mk [(t, YNode.mk [])], [(l, [t]), (0, [])]) := by
  unfold outlineStep
  simp only [List.dropWhile_cons]
  rw [if_neg (by simp; omega)]
  rfl

/-- Folding a block of same-level headings with fresh, pairwise-distinct
titles appends them in encounter order as childless children of the
root. -/
theorem outline_siblings_fold (l : Nat) (hl : 1 ≤ l) :
    ∀ (ts : List (List Char)) (es : List (List Char × YNode)) (q : List (List Char)),
      (∀ t ∈ ts, ∀ kv ∈ es, ¬ kv.1 = t) → ts.Nodup →
      ∃ q', List.foldlM outlineStep (YNode.mk es, [(l, q), (0, [])])
          (ts.map (fun t => (l, t)))
        = some (YNode.mk (es ++ ts.map (fun t => (t, YNode.mk []))), [(l, q'), (0, [])]) := by
  intro ts
  induction ts with
  | nil =>
    intro es q _ _
    exact ⟨q, by simp⟩
  | cons t ts ih =>
    intro es q hdisj hnd
    have hstep := outlineStep_sibling l hl es q t (hdisj t (by simp))
    have hdisj' : ∀ t' ∈ ts, ∀ kv ∈ es ++ [(t, YNode.mk [])], ¬ kv.1 = t' := by
      intro t' ht' kv hkv
      rcases List.mem_append.mp hkv with hkv | hkv
      · exact hdisj t' (by simp [ht']) kv hkv
      · have : kv = (t, YNode.mk []) := by simpa using hkv
        rw [this]
        intro hcon
        have ht : t = t' := hcon
        rw [List.nodup_cons] at hnd
        exact hnd.1 (ht ▸ ht')
    obtain ⟨q', hq'⟩ := ih (es ++ [(t, YNode.mk [])]) [t] hdisj' (List.nodup_cons.mp hnd).2
    refine ⟨q', ?_⟩
    rw [List.map_cons, List.foldlM_cons, hstep]
    simp only [Option.bind_eq_bind, Option.some_bind]
    rw [hq']
    simp [List.append_assoc]

/-- C5: (a) the heading sequence of `"# A\n## B\n## C\n# D"` folds to
exactly `[{"A": ["B", "C"]}, "D"]`; (b) a block of equal-level headings
with pairwise-distinct titles yields exactly the bare titles as siblings
in encounter order (equal level ⇒ sibling, no children ⇒ bare string);
(c) a heading followed by one of strictly greater level yields a one-key
mapping with the second heading nested as its child. -/
theorem c5_outline_nesting :
    (outline_as_tree (outline_markdown (pys "# A\n## B\n## C\n# D"))
      = some [FlatTree.branch (pys "A") [FlatTree.leaf (pys "B"), FlatTree.leaf (pys "C")],
          FlatTree.leaf (pys "D")]) ∧
    (∀ (l : Nat) (ts : List (List Char)), 1 ≤ l → ts.Nodup →
      outline_as_tree (ts.map (fun t => (l, t))) = some (ts.map FlatTree.leaf)) ∧
    (∀ (l l' : Nat) (a b : List Char), 1 ≤ l → l < l' →
      outline_as_tree [(l, a), (l', b)]
        = some [FlatTree.branch a [FlatTree.leaf b]]) := by
  refine ⟨rfl, ?_, ?_⟩
  · intro l ts hl hnd
    cases ts with
    | nil => rfl
    | cons t ts =>
      unfold outline_as_tree
      rw [List.map_cons, List.foldlM_cons, outlineStep_first l hl t]
      have hnd' := List.nodup_cons.mp hnd
      obtain ⟨q', hq'⟩ := outline_siblings_fold l hl ts [(t, YNode.mk [])] [t]
        (by
          intro t' ht' kv hkv
          have : kv = (t, YNode.mk []) := by simpa using hkv
          rw [this]
          intro hcon
          have ht : t = t' := hcon
          exact hnd'.1 (ht ▸ ht'))
        hnd'.2
      simp only [Option.bind_eq_bind, Option.some_bind]
      rw [hq']
      simp only [Option.map_some', List.singleton_append]
      rw [flat_tree]
      rw [show ((t, YNode.mk []) :: ts.map (fun t => (t, YNode.mk [])))
          = (t :: ts).map (fun t => (t, YNode.mk [])) from rfl]
      rw [flatEntries_leaves]
  · intro l l' a b hl hll'
    unfold outline_as_tree
    rw [List.foldlM_cons, outlineStep_first l hl a]
    simp only [Option.bind_eq_bind, Option.some_bind, List.foldlM_cons]
    have hstep2 : outlineStep (YNode.mk [(a, YNode.mk [])], [(l, [a]), (0, [])]) (l', b)
        = some (YNode.mk [(a, YNode.mk [(b, YNode.mk [])])],
            [(l', [a, b]), (l, [a]), (0, [])]) := by
      unfold outlineStep
      simp only [List.dropWhile_cons]
      rw [if_neg (by simp; omega)]
      simp only [setPath, YNode.entries, List.map_cons, List.map_nil, if_pos rfl]
      rfl
    rw [hstep2]
    simp only [Option.some_bind, List.foldlM_nil, Option.map_some']
    rfl

/-- C5 witness: the equal-level conjunct evaluated at two concrete
level-2 headings. -/
theorem c5_witness :
    outline_as_tree [(2, pys "X"), (2, pys "Y")]
      = some [FlatTree.leaf (pys "X"), FlatTree.leaf (pys "Y")] := by
  have h := c5_outline_nesting.2.1 2 [pys "X", pys "Y"] (by omega) (by decide)
  simpa using h

/-- Keys present after a dict assignment: those already present, plus
the assigned key. -/
theorem dictSet_any_keys (es : List (List Char × YNode)) (k : List Char) (v : YNode)
    (c : List Char) :
    ((dictSet es k v).any fun kv => kv.1 = c)
      = ((es.any fun kv => kv.1 = c) || k = c) := by
  induction es with
  | nil => simp [dictSet]
  | cons kv rest ih =>
    by_cases hk : kv.1 = k
    · simp only [dictSet, if_pos hk, List.any_cons]
      by_cases hc : kv.1 = c
      · have : (k = c) = (kv.1 = c) := by rw [hk]
        simp [hc, hk ▸ hc]
      · have hkc : ¬ k = c := fun h => hc (hk ▸ h)
        simp [hc, hkc]
    · simp only [dictSet, if_neg hk, List.any_cons, ih]
      by_cases hc : kv.1 = c <;> simp [hc]

/-- A dict assignment preserves the distinct-keys invariant when the
assigned value satisfies it. -/
theorem dictSet_nodup (es : List (List Char × YNode)) (k : List Char) (v : YNode)
    (hes : nodupKeyList es = true) (hv : nodupKeysB v = true) :
    nodupKeyList (dictSet es k v) = true := by
  induction es with
  | nil => simp [dictSet, nodupKeyList, hv]
  | cons kv rest ih =>
    simp only [nodupKeyList, Bool.and_eq_true, Bool.not_eq_true'] at hes
    obtain ⟨⟨hfresh, hval⟩, hrest⟩ := hes
    by_cases hk : kv.1 = k
    · simp only [dictSet, if_pos hk, nodupKeyList, Bool.and_eq_true, Bool.not_eq_true']
      exact ⟨⟨hfresh, hv⟩, hrest⟩
    · simp only [dictSet, if_neg hk, nodupKeyList, Bool.and_eq_true, Bool.not_eq_true']
      refine ⟨⟨?_, hval⟩, ih hrest⟩
      rw [dictSet_any_keys]
      simp only [Bool.or_eq_false_iff]
      refine ⟨hfresh, ?_⟩
      simp only [decide_eq_false_iff_not]
      exact fun h => hk h.symm

/-- The value-rewriting map of `setPath` keeps exactly the keys that
were present. -/
theorem mapEntries_any_keys (p c : List Char) (g : YNode → YNode) :
    ∀ (es : List (List Char × YNode)),
      ((es.map fun kv => if kv.1 = p then (kv.1, g kv.2) else kv).any fun kv => kv.1 = c)
        = es.any fun kv => kv.1 = c := by
  intro es
  induction es with
  | nil => rfl
  | cons kv rest ih =>
    by_cases hp : kv.1 = p
    · rw [List.map_cons, if_pos hp]
      simp only [List.any_cons, ih]
    · rw [List.map_cons, if_neg hp]
      simp only [List.any_cons, ih]

/-- Rewriting the values of selected entries (keeping every key) with a
nodup-preserving transformation preserves the invariant. -/
theorem mapEntries_nodup (p : List Char) (g : YNode → YNode)
    (hg : ∀ w, nodupKeysB w = true → nodupKeysB (g w) = true) :
    ∀ (es : List (List Char × YNode)), nodupKeyList es = true →
      nodupKeyList (es.map fun kv => if kv.1 = p then (kv.1, g kv.2) else kv) = true := by
  intro es
  induction es with
  | nil => intro _; rfl
  | cons kv rest ih =>
    intro hes
    simp only [nodupKeyList, Bool.and_eq_true, Bool.not_eq_true'] at hes
    obtain ⟨⟨hfresh, hval⟩, hrest⟩ := hes
    by_cases hp : kv.1 = p
    · rw [List.map_cons, if_pos hp]
      simp only [nodupKeyList, Bool.and_eq_true, Bool.not_eq_true']
      exact ⟨⟨by rw [mapEntries_any_keys]; exact hfresh, hg kv.2 hval⟩, ih hrest⟩
    · rw [List.map_cons, if_neg hp]
      simp only [nodupKeyList, Bool.and_eq_true, Bool.not_eq_true']
      exact ⟨⟨by rw [mapEntries_any_keys]; exact hfresh, hval⟩, ih hrest⟩

/-- Operation `setPath` preserves the distinct-keys invariant when the inserted
node satisfies it. -/
theorem setPath_nodup (k : List Char) (v : YNode) (hv : nodupKeysB v = true) :
    ∀ (path : List (List Char)) (n : YNode), nodupKeysB n = true →
      nodupKeysB (setPath n path k v) = true := by
  intro path
  induction path with
  | nil =>
    intro n hn
    cases n with
    | mk es =>
      simp only [setPath, nodupKeysB]
      exact dictSet_nodup es k v (by simpa [nodupKeysB] using hn) hv
  | cons p ps ih =>
    intro n hn
    cases n with
    | mk es =>
      simp only [setPath, nodupKeysB, YNode.entries]
      exact mapEntries_nodup p (fun w => setPath w ps k v) (fun w hw => ih w hw) es
        (by simpa [nodupKeysB] using hn)

/-- Every state reachable by the outline fold from a state with a
distinct-keys tree keeps its tree's keys distinct. -/
theorem outlineFold_nodup :
    ∀ (outline : List (Nat × List Char)) (st₀ st : OutlineState),
      nodupKeysB st₀.1 = true →
      List.foldlM outlineStep st₀ outline = some st → nodupKeysB st.1 = true := by
  intro outline
  induction outline with
  | nil =>
    intro st₀ st h0 h
    simp only [List.foldlM_nil, Option.pure_def, Option.some.injEq] at h
    rw [← h]
    exact h0
  | cons hd rest ih =>
    intro st₀ st h0 h
    rw [List.foldlM_cons] at h
    cases hs : outlineStep st₀ hd with
    | none => rw [hs] at h; simp at h
    | some st₁ =>
      rw [hs] at h
      simp only [Option.bind_eq_bind, Option.some_bind] at h
      refine ih st₁ st ?_ h
      unfold outlineStep at hs
      cases hd' : st₀.2.dropWhile (fun e => hd.1 ≤ e.1) with
      | nil => rw [hd'] at hs; simp at hs
      | cons top rest' =>
        rw [hd'] at hs
        simp only [Option.some.injEq] at hs
        rw [← hs]
        exact setPath_nodup hd.2 (YNode.mk []) rfl top.2 st₀.1 h0

/-- C10: (i) in every tree the outline fold produces, the keys under any
one parent are pairwise distinct at every depth; (ii) consequently the
input `"# A\n# A"` — two sibling headings with identical titles — folds
to the single entry `["A"]`: the later heading overwrites the earlier
one, and the output has fewer entries than the input has headings. -/
theorem c10_distinct_keys :
    (∀ (outline : List (Nat × List Char)) (st : OutlineState),
        List.foldlM outlineStep (YNode.mk [], [(0, ([] : List (List Char)))]) outline
          = some st →
        nodupKeysB st.1 = true) ∧
    (outline_as_tree (outline_markdown (pys "# A\n# A")) = some [FlatTree.leaf (pys "A")] ∧
      [FlatTree.leaf (pys "A")].length < (outline_markdown (pys "# A\n# A")).length) := by
  refine ⟨?_, rfl, by decide⟩
  intro outline st h
  exact outlineFold_nodup outline (YNode.mk [], [(0, ([] : List (List Char)))]) st rfl h

/-- C10 witness: the invariant evaluated on the concrete outline
`[(1, "A"), (2, "B")]` and the state its fold reaches. -/
theorem c10_witness :
    nodupKeysB (YNode.mk [(pys "A", YNode.mk [(pys "B", YNode.mk [])])]) = true :=
  c10_distinct_keys.1 [(1, pys "A"), (2, pys "B")]
    (YNode.mk [(pys "A", YNode.mk [(pys "B", YNode.mk [])])],
      [(2, [pys "A", pys "B"]), (1, [pys "A"]), (0, [])]) rfl

/-! ### Lemmas about the cache-file path -/

/-- Characterization of `pyRfind`: if `pat` matches at `m` and at no
later index, the rightmost occurrence is `m`. -/
theorem pyRfind_spec (hay pat : List Char) (m : Nat) (hm : m ≤ hay.length)
    (hP : pat.isPrefixOf (hay.drop m) = true)
    (hafter : ∀ i, m < i → i ≤ hay.length → pat.isPrefixOf (hay.drop i) = false) :
    pyRfind hay pat = some m := by
  unfold pyRfind
  have hsplit : hay.length + 1 = (m + 1) + (hay.length - m) := by omega
  rw [hsplit, List.range_add]
  rw [List.filter_append]
  have hnil : ((List.range (hay.length - m)).map ((m + 1) + ·)).filter
      (fun i => pat.isPrefixOf (hay.drop i)) = [] := by
    rw [List.filter_eq_nil_iff]
    intro a ha
    obtain ⟨j, hj, rfl⟩ := List.mem_map.mp ha
    have hj' : j < hay.length - m := List.mem_range.mp hj
    rw [hafter (m + 1 + j) (by omega) (by omega)]
    simp
  rw [hnil, List.append_nil]
  rw [List.range_succ, List.filter_append]
  have hone : [m].filter (fun i => pat.isPrefixOf (hay.drop i)) = [m] := by
    simp [List.filter, hP]
  rw [hone, List.getLast?_concat]

/-- A one-character pattern is a prefix exactly when it is the head. -/
theorem isPrefixOf_single (ch c : Char) (rest : List Char) :
    ([ch] : List Char).isPrefixOf (c :: rest) = (ch == c) := by
  simp [List.isPrefixOf]

/-- The slash separating the directory from a slash-free name is the
rightmost one. -/
theorem pyRfind_slash (dir name : List Char) (h : ('/' : Char) ∉ name) :
    pyRfind (dir ++ pys "/" ++ name) (pys "/") = some dir.length := by
  have hone : (pys "/").length = 1 := rfl
  have hlen : (dir ++ pys "/" ++ name).length = dir.length + 1 + name.length := by
    simp only [List.length_append, hone]
  apply pyRfind_spec
  · rw [hlen]; omega
  · have h1 : dir ++ pys "/" ++ name = dir ++ (pys "/" ++ name) := by
      simp [List.append_assoc]
    rw [h1, List.drop_left' rfl]
    have h2 : pys "/" ++ name = '/' :: name := rfl
    rw [h2, show pys "/" = ['/'] from rfl, isPrefixOf_single]
    simp
  · intro i hi hile
    rw [hlen] at hile
    have h1 : dir ++ pys "/" ++ name = (dir ++ pys "/") ++ name := rfl
    have h2 : i = (dir ++ pys "/").length + (i - dir.length - 1) := by
      simp only [List.length_append, hone]
      omega
    rw [h1, h2, List.drop_append]
    cases hd : name.drop (i - dir.length - 1) with
    | nil => rfl
    | cons c rest =>
      rw [show pys "/" = ['/'] from rfl, isPrefixOf_single]
      rw [beq_eq_false_iff_ne]
      intro hc
      apply h
      rw [hc]
      exact List.mem_of_mem_drop (hd ▸ List.mem_cons_self c rest)

/-- A dot-free name has no suffix: `rfind('.')` reports no occurrence. -/
theorem pyRfind_none_dot (name : List Char) (h : ('.' : Char) ∉ name) :
    pyRfind name (pys ".") = none := by
  unfold pyRfind
  rw [List.getLast?_eq_none_iff, List.filter_eq_nil_iff]
  intro a _
  cases hd : name.drop a with
  | nil => decide
  | cons c rest =>
    rw [show pys "." = ['.'] from rfl, isPrefixOf_single]
    simp only [beq_iff_eq]
    intro hc
    apply h
    rw [hc]
    exact List.mem_of_mem_drop (hd ▸ List.mem_cons_self c rest)

/-- Applying `with_suffix` to a path whose final component has no dot simply
appends the suffix. -/
theorem withSuffix_fresh (dir name suffix : List Char)
    (hslash : ('/' : Char) ∉ name) (hdot : ('.' : Char) ∉ name) :
    withSuffix (dir ++ pys "/" ++ name) suffix = dir ++ pys "/" ++ name ++ suffix := by
  have hone : (pys "/").length = 1 := rfl
  unfold withSuffix
  rw [pyRfind_slash dir name hslash]
  have htake : (dir ++ pys "/" ++ name).take (dir.length + 1) = dir ++ pys "/" := by
    have h1 : dir ++ pys "/" ++ name = (dir ++ pys "/") ++ name := rfl
    rw [h1, List.take_left' (by simp only [List.length_append, hone])]
  have hdrop : (dir ++ pys "/" ++ name).drop (dir.length + 1) = name := by
    have h1 : dir ++ pys "/" ++ name = (dir ++ pys "/") ++ name := rfl
    rw [h1, List.drop_left' (by simp only [List.length_append, hone])]
  simp only [htake, hdrop, pyRfind_none_dot name hdot]

/-- C7: the cache-file path `(PATH_MERMAID / sha1(code)).with_suffix(...)`
ends in `.pdf` for output formats `pdf` and `latex`, in `.svg` for
`html` and `markdown`, and in `.png` for every other format.  The
hypotheses state that the external SHA-1 hex digest contains no dot and
no slash (it is forty hex characters). -/
theorem c7_extension_selection (pathMermaid : List Char) (sha1 : List Char → List Char)
    (code format : List Char)
    (hdot : ('.' : Char) ∉ sha1 code) (hslash : ('/' : Char) ∉ sha1 code) :
    ((format = pys "pdf" ∨ format = pys "latex") →
      pys ".pdf" <:+ mermaidOutfile pathMermaid sha1 code format) ∧
    ((format = pys "html" ∨ format = pys "markdown") →
      pys ".svg" <:+ mermaidOutfile pathMermaid sha1 code format) ∧
    (format ∉ [pys "pdf", pys "latex", pys "html", pys "markdown"] →
      pys ".png" <:+ mermaidOutfile pathMermaid sha1 code format) := by
  have hout : ∀ f : List Char, mermaidOutfile pathMermaid sha1 code f
      = pathMermaid ++ pys "/" ++ sha1 code ++ (pys "." ++ mermaidFiletype f) := by
    intro f
    unfold mermaidOutfile
    exact withSuffix_fresh pathMermaid (sha1 code) (pys "." ++ mermaidFiletype f) hslash hdot
  refine ⟨?_, ?_, ?_⟩
  · intro hf
    rw [hout format]
    have hft : mermaidFiletype format = pys "pdf" := by
      rcases hf with hf | hf <;> rw [hf] <;> rfl
    rw [hft]
    exact ⟨pathMermaid ++ pys "/" ++ sha1 code, rfl⟩
  · intro hf
    rw [hout format]
    have hft : mermaidFiletype format = pys "svg" := by
      rcases hf with hf | hf <;> rw [hf] <;> rfl
    rw [hft]
    exact ⟨pathMermaid ++ pys "/" ++ sha1 code, rfl⟩
  · intro hf
    rw [hout format]
    have hft : mermaidFiletype format = pys "png" := by
      unfold mermaidFiletype
      simp only [List.mem_cons, not_or] at hf
      rw [if_neg hf.2.2.1, if_neg hf.2.2.2.1, if_neg hf.1, if_neg hf.2.1]
    rw [hft]
    exact ⟨pathMermaid ++ pys "/" ++ sha1 code, rfl⟩

/-- C7 witness: the three extension cases evaluated with the concrete
SHA-1 stub and formats `latex`, `markdown`, `docx`. -/
theorem c7_witness :
    (pys ".pdf" <:+ mermaidOutfile (pys "mermaid") stubSha1 (pys "graph TD") (pys "latex")) ∧
    (pys ".svg" <:+ mermaidOutfile (pys "mermaid") stubSha1 (pys "graph TD") (pys "markdown")) ∧
    (pys ".png" <:+ mermaidOutfile (pys "mermaid") stubSha1 (pys "graph TD") (pys "docx")) :=
  ⟨(c7_extension_selection (pys "mermaid") stubSha1 (pys "graph TD") (pys "latex")
      (by decide) (by decide)).1 (Or.inr rfl),
    (c7_extension_selection (pys "mermaid") stubSha1 (pys "graph TD") (pys "markdown")
      (by decide) (by decide)).2.1 (Or.inr rfl),
    (c7_extension_selection (pys "mermaid") stubSha1 (pys "graph TD") (pys "docx")
      (by decide) (by decide)).2.2 (by decide)⟩

/-! ### Lemmas about attribute maps and the C8 theorems -/

/-- Removing one key does not change the lookup of another. -/
theorem attrLookup_filter_ne (attrs : AttrMap) (k k' : List Char) (h : ¬ k = k') :
    attrLookup (attrs.filter fun kv => ¬ kv.1 = k') k = attrLookup attrs k := by
  induction attrs with
  | nil => rfl
  | cons kv rest ih =>
    by_cases hk : kv.1 = k
    · have hk' : ¬ kv.1 = k' := fun hh => h (hk ▸ hh)
      rw [List.filter_cons_of_pos (by simp [hk'])]
      unfold attrLookup
      rw [List.find?_cons_of_pos _ (by simp [hk]), List.find?_cons_of_pos _ (by simp [hk])]
    · by_cases hk' : kv.1 = k'
      · rw [List.filter_cons_of_neg (by simp [hk'])]
        unfold attrLookup at *
        rw [List.find?_cons_of_neg _ (by simp [hk])]
        exact ih
      · rw [List.filter_cons_of_pos (by simp [hk'])]
        unfold attrLookup at *
        rw [List.find?_cons_of_neg _ (by simp [hk]), List.find?_cons_of_neg _ (by simp [hk])]
        exact ih

/-- The three successive `pop`s remove exactly the keys `caption`,
`alt`, `title`. -/
theorem filter_consumed (attrs : AttrMap) :
    (((attrs.filter fun kv => ¬ kv.1 = pys "caption").filter
        fun kv => ¬ kv.1 = pys "alt").filter fun kv => ¬ kv.1 = pys "title")
      = attrs.filter fun kv =>
          ¬ (kv.1 = pys "caption" ∨ kv.1 = pys "alt" ∨ kv.1 = pys "title") := by
  rw [List.filter_filter, List.filter_filter]
  apply List.filter_congr
  intro kv _
  by_cases h1 : kv.1 = pys "caption" <;> by_cases h2 : kv.1 = pys "alt" <;>
    by_cases h3 : kv.1 = pys "title" <;> simp [h1, h2, h3]

/-- C8 (counterexample): a mermaid code block that carries a `caption`
attribute whose value is the empty string.  The empty string is falsy,
so the filter returns a plain paragraph, not the captioned figure the
claim promises for every block carrying a `caption` attribute (and the
alt text falls back to `"Mermaid Diagram"` rather than the caption). -/
theorem c8_counterexample :
    (attrLookup [(pys "caption", ([] : List Char))] (pys "caption") = some []) ∧
    mermaid stubConvert stubSha1 (pys "mermaid")
        ⟨pys "graph TD", [pys "mermaid"], pys "id1", [(pys "caption", [])]⟩ (pys "html")
      = .plain ⟨[pys "Mermaid Diagram"],
          pys "mermaid/da39a3ee5e6b4b0d3255bfef95601890afd80709.svg", [], [],
          [pys "mermaid"], []⟩ :=
  ⟨rfl, rfl⟩

/-- C8 (amended): for every mermaid code block, writing `cap`/`alt` for
the `caption`/`alt` attribute values: the constructed image carries the
alt inlines converted from the explicit alt attribute when present and
non-empty, else the caption text when present and non-empty, else
`"Mermaid Diagram"`; its URL is the cache file, its title the consumed
`title` attribute, its attribute map the block's map with `caption`,
`alt` and `title` removed, its classes the block's classes.  When the
block carries a NON-EMPTY `caption` attribute the filter returns a
captioned figure whose identifier is the block's and the image keeps the
block's identifier too; when `caption` is absent or empty it returns a
plain paragraph and the image's identifier is cleared. -/
theorem c8_replacement_amended {I : Type} (convert_text : List Char → List (PBlock I))
    (sha1 : List Char → List Char) (pathMermaid : List Char)
    (elem : PCodeBlock) (format : List Char)
    (hmem : (pys "mermaid") ∈ elem.classes)
    (hne : convert_text (altSource (attrLookup elem.attributes (pys "alt"))
        (attrLookup elem.attributes (pys "caption"))) ≠ []) :
    ∃ (b : PBlock I),
      (convert_text (altSource (attrLookup elem.attributes (pys "alt"))
          (attrLookup elem.attributes (pys "caption")))).head? = some b ∧
      ∃ (image : PImage I),
        image.content = b.content ∧
        image.url = mermaidOutfile pathMermaid sha1 elem.text format ∧
        image.title = (attrLookup elem.attributes (pys "title")).getD [] ∧
        image.attributes = elem.attributes.filter
          (fun kv => ¬ (kv.1 = pys "caption" ∨ kv.1 = pys "alt" ∨ kv.1 = pys "title")) ∧
        image.classes = elem.classes ∧
        (∀ c, truthy (attrLookup elem.attributes (pys "caption")) = some c →
          image.identifier = elem.identifier ∧
          mermaid convert_text sha1 pathMermaid elem format
            = .figure elem.identifier (convert_text c) image) ∧
        (truthy (attrLookup elem.attributes (pys "caption")) = none →
          image.identifier = [] ∧
          mermaid convert_text sha1 pathMermaid elem format = .plain image) := by
  have hca : ¬ (pys "alt") = (pys "caption") := by decide
  have hct : ¬ (pys "title") = (pys "caption") := by decide
  have hat : ¬ (pys "title") = (pys "alt") := by decide
  have hA : attrLookup (elem.attributes.filter fun kv => ¬ kv.1 = pys "caption") (pys "alt")
      = attrLookup elem.attributes (pys "alt") :=
    attrLookup_filter_ne elem.attributes (pys "alt") (pys "caption") hca
  have hT : attrLookup ((elem.attributes.filter fun kv => ¬ kv.1 = pys "caption").filter
        fun kv => ¬ kv.1 = pys "alt") (pys "title")
      = attrLookup elem.attributes (pys "title") := by
    rw [attrLookup_filter_ne _ _ _ hat,
      attrLookup_filter_ne elem.attributes (pys "title") (pys "caption") hct]
  cases hcv : convert_text (altSource (attrLookup elem.attributes (pys "alt"))
      (attrLookup elem.attributes (pys "caption"))) with
  | nil => exact absurd hcv hne
  | cons b bs =>
    refine ⟨b, rfl, ?_⟩
    refine ⟨⟨b.content, mermaidOutfile pathMermaid sha1 elem.text format,
      (attrLookup elem.attributes (pys "title")).getD [],
      elem.attributes.filter
        (fun kv => ¬ (kv.1 = pys "caption" ∨ kv.1 = pys "alt" ∨ kv.1 = pys "title")),
      elem.classes,
      match truthy (attrLookup elem.attributes (pys "caption")) with
      | some _ => elem.identifier
      | none => []⟩, rfl, rfl, rfl, rfl, rfl, ?_, ?_⟩
    · intro c hc
      constructor
      · simp only [hc]
      · simp only [mermaid, hmem, if_true, attrPop, hA, hT, hc, hcv, filter_consumed,
          Option.map_some', List.head?_cons, Option.getD]
    · intro hc
      constructor
      · simp only [hc]
      · simp only [mermaid, hmem, if_true, attrPop, hA, hT, hc, hcv, filter_consumed,
          Option.map_none', List.head?_cons, Option.getD]

/-- C8 witness: the amended theorem evaluated at a concrete block
carrying `caption="Cap"` and one extra attribute, in `pdf` format. -/
theorem c8_witness :
    ∃ (b : PBlock (List Char)),
      (stubConvert (altSource
          (attrLookup [(pys "caption", pys "Cap"), (pys "x", pys "1")] (pys "alt"))
          (attrLookup [(pys "caption", pys "Cap"), (pys "x", pys "1")]
            (pys "caption")))).head? = some b ∧
      ∃ (image : PImage (List Char)),
        image.content = b.content ∧
        image.url = mermaidOutfile (pys "mermaid") stubSha1 (pys "graph TD") (pys "pdf") ∧
        image.title = (attrLookup [(pys "caption", pys "Cap"), (pys "x", pys "1")]
          (pys "title")).getD [] ∧
        image.attributes = [(pys "caption", pys "Cap"), (pys "x", pys "1")].filter
          (fun kv => ¬ (kv.1 = pys "caption" ∨ kv.1 = pys "alt" ∨ kv.1 = pys "title")) ∧
        image.classes = [pys "mermaid"] ∧
        (∀ c, truthy (attrLookup [(pys "caption", pys "Cap"), (pys "x", pys "1")]
            (pys "caption")) = some c →
          image.identifier = pys "idW" ∧
          mermaid stubConvert stubSha1 (pys "mermaid")
              ⟨pys "graph TD", [pys "mermaid"], pys "idW",
                [(pys "caption", pys "Cap"), (pys "x", pys "1")]⟩ (pys "pdf")
            = .figure (pys "idW") (stubConvert c) image) ∧
        (truthy (attrLookup [(pys "caption", pys "Cap"), (pys "x", pys "1")]
            (pys "caption")) = none →
          image.identifier = [] ∧
          mermaid stubConvert stubSha1 (pys "mermaid")
              ⟨pys "graph TD", [pys "mermaid"], pys "idW",
                [(pys "caption", pys "Cap"), (pys "x", pys "1")]⟩ (pys "pdf")
            = .plain image) :=
  c8_replacement_amended stubConvert stubSha1 (pys "mermaid")
    ⟨pys "graph TD", [pys "mermaid"], pys "idW",
      [(pys "caption", pys "Cap"), (pys "x", pys "1")]⟩ (pys "pdf")
    (by decide) (List.cons_ne_nil _ _)

end Sieve
